import Mathlib

/-!
Shallow embedding of the memory-bounded mipmap pipeline in
`merge_textures.py` (classes `HardwareManager`, `ChunkProcessor`,
`MipmapProcessor`).

Modelling conventions:
* an `Img` is a pair of dimensions together with a total pixel function
  (pixel values encoded as `Nat`); PIL's `Image.new('RGB', size)` initialises
  every pixel to 0 (black);
* PIL's `resize` is modelled as an exact-size sampling operation; the claims
  depend only on the output dimensions and on the fact that resizing an image
  to its own size leaves every pixel unchanged (Pillow returns a copy in that
  case), both of which the model satisfies;
* Python float arithmetic on the scale ratios `target/source` is modelled by
  exact natural-number fraction arithmetic: the per-level scale is carried as
  the pair `(targetDim, sourceDim)` and `int(c * (t/s))` becomes the floor
  division `c * t / s`; `psutil` counters are natural numbers;
* exceptions are modelled with `Except`: `check_resources`'s `RuntimeError`
  is the only error source of the tiling pipeline, and `safe_resize`'s
  blanket `except` is the surrounding `match`;
* the `ValueError` that PIL raises when a tile's clipped paste rectangle is
  degenerate (zero width or height) is modelled by the explicit skip branch
  of `mergeLoop`, mirroring `merge`'s `try/except ValueError: continue`.
-/

/-- Image model: dimensions plus a total pixel function. -/
structure Img where
  width : Nat
  height : Nat
  pix : Nat → Nat → Nat

/-- Models `Image.new('RGB', (w, h))`: fresh buffer, every pixel 0. -/
def Img.new (w h : Nat) : Img := ⟨w, h, fun _ _ => 0⟩

/-- Size of an image as a `(width, height)` pair. -/
def Img.size (img : Img) : Nat × Nat := (img.width, img.height)

/-- Models `img.crop((x0, y0, x1, y1))`: a `(x1-x0) x (y1-y0)` view shifted
by `(x0, y0)`. -/
def Img.crop (img : Img) (x0 y0 x1 y1 : Nat) : Img :=
  ⟨x1 - x0, y1 - y0, fun x y => img.pix (x0 + x) (y0 + y)⟩

/-- Models `img.resize((w, h), Image.LANCZOS)`: output has exactly the
requested dimensions; pixel content is a sampling abstraction of the filter.
Resizing to the image's own size is the pointwise identity, as in Pillow. -/
def Img.resize (w h : Nat) (img : Img) : Img :=
  ⟨w, h, fun x y => img.pix (x * img.width / w) (y * img.height / h)⟩

/-- Models `dst.paste(src, (x0, y0, x1, y1))` where `src` has the size of the
box: pixels inside the box come from `src`, the rest stay. -/
def Img.paste (dst src : Img) (x0 y0 x1 y1 : Nat) : Img :=
  ⟨dst.width, dst.height, fun x y =>
    if x0 ≤ x ∧ x < x1 ∧ y0 ≤ y ∧ y < y1 then src.pix (x - x0) (y - y0)
    else dst.pix x y⟩

/-- System resource counters as read from `psutil`: available memory in
bytes, free disk space in bytes, used-memory percentage. -/
structure ResState where
  availMem : Nat
  diskFree : Nat
  usedPercent : Nat

/-- Models `HardwareManager.check_resources`: raises (`RuntimeError`) unless
available memory exceeds 1 GiB and free disk space exceeds 2 GiB. -/
def checkResources (st : ResState) : Except String Unit :=
  if 1 * 1024 * 1024 * 1024 < st.availMem ∧ 2 * 1024 * 1024 * 1024 < st.diskFree
  then Except.ok ()
  else Except.error "insufficient resources"

/-- Tile rectangle `(x0, y0, x1, y1)` in source-image coordinates. -/
structure Tile where
  x0 : Nat
  y0 : Nat
  x1 : Nat
  y1 : Nat
deriving DecidableEq

/-- Membership of a pixel coordinate in a tile's half-open rectangle. -/
def Tile.contains (t : Tile) (px py : Nat) : Prop :=
  t.x0 ≤ px ∧ px < t.x1 ∧ t.y0 ≤ py ∧ py < t.y1

instance (t : Tile) (px py : Nat) : Decidable (t.contains px py) := by
  unfold Tile.contains; infer_instance

/-- Models Python's `range(0, stop, step)` for positive `step`:
`[0, step, 2*step, ...)` up to but excluding `stop`. -/
def pyRange (stop step : Nat) : List Nat :=
  (List.range ((stop + step - 1) / step)).map (fun k => k * step)

/-- Models the dynamic chunk-size computation of `ChunkProcessor.safe_resize`
(lines 93-95): `base_size = W*H*3`, `mem_factor = avail / (base_size*2)`,
`chunk = max(256, min(2048, int(sqrt(mem_factor)) * 128))`; the float
square root of the float quotient is modelled by `Nat.sqrt` of the floor
quotient. -/
def chunkSizeOf (availMem W H : Nat) : Nat :=
  max 256 (min 2048 (Nat.sqrt (availMem / (W * H * 3 * 2)) * 128))

/-- Models the ordered tile-coordinate generation of `safe_resize`
(lines 98-102): row-major list of chunk rectangles clipped to the image. -/
def tilePlan (W H c : Nat) : List Tile :=
  (pyRange H c).flatMap fun y =>
    (pyRange W c).map fun x => ⟨x, y, min (x + c) W, min (y + c) H⟩

/-- Models `int(cropDim * (tgtDim / srcDim))` computed in exact rational
arithmetic: Python `int()` truncates toward zero, which on these nonnegative
values is the floor `cropDim * tgtDim / srcDim`. -/
def pyTruncScale (cropDim tgtDim srcDim : Nat) : Nat :=
  cropDim * tgtDim / srcDim

/-- Models one tile step of `safe_resize` (lines 110-114): crop the tile,
then resize the crop to `(max(1, int(w*scaleW)), max(1, int(h*scaleH)))`
where the scale ratios are carried as the exact fractions
`tgtW/srcW`, `tgtH/srcH`. -/
def resampleTile (img : Img) (t : Tile) (tgtW tgtH : Nat) : Img :=
  let cropped := img.crop t.x0 t.y0 t.x1 t.y1
  Img.resize
    (max 1 (pyTruncScale cropped.width tgtW img.width))
    (max 1 (pyTruncScale cropped.height tgtH img.height))
    cropped

/-- Models Python's `lst[-3:]` (for the retention cap: keep the most recent
`n` elements). -/
def pyTakeLast (n : Nat) (l : List α) : List α := l.drop (l.length - n)

/-- Models the per-tile accumulation loop of `safe_resize` (lines 107-124):
resample each tile in order; when memory pressure is detected
(`virtual_memory().percent > 85`) the pending list is first cut to its last
3 elements; then the fresh tile is appended. (The `close()` calls of the
pressure branch are examined separately in `tileLoopStep`.) -/
def processTiles (pressure : Bool) (img : Img) (tgtW tgtH : Nat) :
    List Tile → List Img → List Img
  | [], acc => acc
  | t :: rest, acc =>
    let scaled := resampleTile img t tgtW tgtH
    let acc' := if pressure then pyTakeLast 3 acc else acc
    processTiles pressure img tgtW tgtH rest (acc' ++ [scaled])

/-- Models the memory-pressure branch of the tile loop (lines 116-124) at the
level of tile identities: given the pending list and the identifiers of the
current crop and the current scaled tile, returns the pending list after the
iteration together with the list of identifiers whose memory the code
explicitly releases (`.close()`). Without pressure nothing is closed and the
tile is appended. -/
def tileLoopStep (pressure : Bool) (pending : List Nat) (cropId scaledId : Nat) :
    List Nat × List Nat :=
  if pressure then (pyTakeLast 3 pending ++ [scaledId], [cropId, scaledId])
  else (pending ++ [scaledId], [])

/-- Identifiers dropped from the pending list by `pending[-3:]`. -/
def droppedByCap (pending : List Nat) : List Nat :=
  pending.take (pending.length - 3)

/-- Models the cursor-driven reassembly loop of `ChunkProcessor.merge`
(lines 138-173). State: buffer, `x_pos`, `y_pos`, `current_row_height`.
A degenerate clipped rectangle makes the corrective `resize` raise
`ValueError`, which the source catches with `continue`: that skip branch
leaves the cursor untouched. -/
def mergeLoop : List Img → Img → Nat → Nat → Nat → Img
  | [], merged, _, _, _ => merged
  | t :: rest, merged, xPos, yPos, rowH =>
    let xPos' := if merged.width < xPos + t.width then 0 else xPos
    let yPos' := if merged.width < xPos + t.width then yPos + rowH else yPos
    let rowH' := if merged.width < xPos + t.width then 0 else rowH
    if merged.height ≤ yPos' then merged
    else
      let px1 := min (xPos' + t.width) merged.width
      let py1 := min (yPos' + t.height) merged.height
      if px1 - xPos' = 0 ∨ py1 - yPos' = 0 then
        mergeLoop rest merged xPos' yPos' rowH'
      else
        let merged' := merged.paste (Img.resize (px1 - xPos') (py1 - yPos') t)
          xPos' yPos' px1 py1
        let rowH'' := max rowH' t.height
        if merged'.height < yPos' + rowH'' then merged'
        else mergeLoop rest merged' (xPos' + t.width) yPos' rowH''

/-- Models `ChunkProcessor.merge(tiles, target_size)`: allocate the
destination buffer and run the reassembly loop from the origin. -/
def merge (tiles : List Img) (target : Nat × Nat) : Img :=
  mergeLoop tiles (Img.new target.1 target.2) 0 0 0

/-- Paste rectangles actually written by `mergeLoop` on a `W x H` buffer,
following exactly the same control flow (the buffer dimensions are invariant
under `paste`, so the boxes depend only on `W`, `H` and the tile sizes). -/
def mergeBoxes (W H : Nat) : List Img → Nat → Nat → Nat → List (Nat × Nat × Nat × Nat)
  | [], _, _, _ => []
  | t :: rest, xPos, yPos, rowH =>
    let xPos' := if W < xPos + t.width then 0 else xPos
    let yPos' := if W < xPos + t.width then yPos + rowH else yPos
    let rowH' := if W < xPos + t.width then 0 else rowH
    if H ≤ yPos' then []
    else
      let px1 := min (xPos' + t.width) W
      let py1 := min (yPos' + t.height) H
      if px1 - xPos' = 0 ∨ py1 - yPos' = 0 then
        mergeBoxes W H rest xPos' yPos' rowH'
      else
        let rowH'' := max rowH' t.height
        (xPos', yPos', px1, py1) ::
          (if H < yPos' + rowH'' then [] else mergeBoxes W H rest (xPos' + t.width) yPos' rowH'')

/-- Decidable test: does pixel `(x, y)` lie in one of the paste boxes? -/
def inBoxes : List (Nat × Nat × Nat × Nat) → Nat → Nat → Bool
  | [], _, _ => false
  | b :: bs, x, y =>
    decide (b.1 ≤ x ∧ x < b.2.2.1 ∧ b.2.1 ≤ y ∧ y < b.2.2.2) || inBoxes bs x y

/-- Models the body of `safe_resize`'s `try` block (lines 90-126): resource
check, chunk sizing, tile generation, per-tile resampling, reassembly. The
only modelled error source is `check_resources`. -/
def safeResizePipeline (st : ResState) (img : Img) (target : Nat × Nat) :
    Except String Img :=
  match checkResources st with
  | Except.error e => Except.error e
  | Except.ok _ =>
    let c := chunkSizeOf st.availMem img.width img.height
    let tiles := tilePlan img.width img.height c
    let processed := processTiles (85 < st.usedPercent) img target.1 target.2 tiles []
    Except.ok (merge processed target)

/-- Models `ChunkProcessor.safe_resize` (lines 87-129): run the tiling
pipeline; on any raised error, fall back to a single whole-image
`img.resize(target_size, Image.LANCZOS)`. -/
def safeResize (st : ResState) (img : Img) (target : Nat × Nat) : Img :=
  match safeResizePipeline st img target with
  | Except.ok r => r
  | Except.error _ => Img.resize target.1 target.2 img

/-- Per-axis integer halving used by `MipmapProcessor.process`
(`current_size = (current_size[0] // 2, current_size[1] // 2)`). -/
def halveSize (s : Nat × Nat) : Nat × Nat := (s.1 / 2, s.2 / 2)

/-- Models `MipmapProcessor.process_image` (lines 221-235): if the level's
source image already has the target size it is used as-is, otherwise it is
resized through `safe_resize` (the size-mismatch warning has no effect on
the data flow). -/
def processImage (st : ResState) (img : Img) (target : Nat × Nat) : Img :=
  if img.size = target then img else safeResize st img target

/-- Target sizes computed by the `process` loop (lines 201-206): starting
from the base size, each of `n` additional levels halves the running
`current_size` per axis. -/
def levelTargets : Nat × Nat → Nat → List (Nat × Nat)
  | _, 0 => []
  | cur, n + 1 => halveSize cur :: levelTargets (halveSize cur) n

/-- Resized outputs of the `process` loop for the additional levels: level
`i+1` is produced from its source image at target `halveSize cur`, and the
running size is updated to that target. -/
def processLevels (st : ResState) : Nat × Nat → List Img → List Img
  | _, [] => []
  | cur, s :: rest =>
    processImage st s (halveSize cur) :: processLevels st (halveSize cur) rest

/-- Modelled from the spec ("resizes the crop to
(max(1, round(cropWidth x scaleX)), max(1, round(cropHeight x scaleY)))"):
Python's `round` on the exact nonnegative rational `a / b`, which rounds
half-to-even. Used only to compare the spec's stated formula with the
source's truncation. -/
def pyRoundDiv (a b : Nat) : Nat :=
  let q := a / b
  let r := a % b
  if 2 * r < b then q
  else if b < 2 * r then q + 1
  else if q % 2 = 0 then q else q + 1

/-- Modelled from the spec's wording of the resample contract: tile
dimension `max(1, round(cropDim * tgtDim / srcDim))`. -/
def claimResampleDim (cropDim tgtDim srcDim : Nat) : Nat :=
  max 1 (pyRoundDiv (cropDim * tgtDim) srcDim)

/-- Tile dimension as the source computes it:
`max(1, int(cropDim * tgtDim / srcDim))`, truncation instead of rounding. -/
def sourceResampleDim (cropDim tgtDim srcDim : Nat) : Nat :=
  max 1 (pyTruncScale cropDim tgtDim srcDim)

/-- Modelled from the spec's wording of the reassembly contract for the
skip-on-paste-failure case ("skip that tile and continue", "advance xPos by
the tile's (pre-clip) width; update currentRowHeight = max(currentRowHeight,
tile height)" for every tile processed): identical to `mergeLoop` except
that the cursor is advanced, and the end-of-row overflow check performed,
also for a tile whose paste failed. -/
def mergeClaimLoop : List Img → Img → Nat → Nat → Nat → Img
  | [], merged, _, _, _ => merged
  | t :: rest, merged, xPos, yPos, rowH =>
    let xPos' := if merged.width < xPos + t.width then 0 else xPos
    let yPos' := if merged.width < xPos + t.width then yPos + rowH else yPos
    let rowH' := if merged.width < xPos + t.width then 0 else rowH
    if merged.height ≤ yPos' then merged
    else
      let px1 := min (xPos' + t.width) merged.width
      let py1 := min (yPos' + t.height) merged.height
      let rowH'' := max rowH' t.height
      if px1 - xPos' = 0 ∨ py1 - yPos' = 0 then
        if merged.height < yPos' + rowH'' then merged
        else mergeClaimLoop rest merged (xPos' + t.width) yPos' rowH''
      else
        let merged' := merged.paste (Img.resize (px1 - xPos') (py1 - yPos') t)
          xPos' yPos' px1 py1
        if merged'.height < yPos' + rowH'' then merged'
        else mergeClaimLoop rest merged' (xPos' + t.width) yPos' rowH''

/-- Spec-worded variant of `merge` built on `mergeClaimLoop`. -/
def mergeClaim (tiles : List Img) (target : Nat × Nat) : Img :=
  mergeClaimLoop tiles (Img.new target.1 target.2) 0 0 0

/-- Row-major ordering on tiles: strictly later row, or same row and
strictly greater column. -/
def tileBefore (a b : Tile) : Prop :=
  a.y0 < b.y0 ∨ (a.y0 = b.y0 ∧ a.x0 < b.x0)

/-- Resource state with available memory below the 1 GiB floor (disk space
ample), used as a concrete breached-floor scenario. -/
def stLow : ResState := ⟨0, 10 ^ 12, 0⟩

/-- Concrete 4x4 source image with distinct pixel values. -/
def imgW : Img := ⟨4, 4, fun x y => x + 4 * y⟩

/-- Concrete 4x4 level-source image already at its target size. -/
def img44 : Img := ⟨4, 4, fun _ _ => 0⟩

/-- Concrete degenerate tile (width 0): its clipped paste rectangle is empty,
so pasting it raises and the merge loop skips it. -/
def ztile : Img := ⟨0, 5, fun _ _ => 1⟩

/-- Concrete 2x2 tile with constant pixel value 7. -/
def tile7 : Img := ⟨2, 2, fun _ _ => 7⟩

/-- Concrete 2x2 tile with constant pixel value 5. -/
def tile5 : Img := ⟨2, 2, fun _ _ => 5⟩

/-- Concrete 2x3 tile with injective pixel values. -/
def tfull : Img := ⟨2, 3, fun x y => x + 10 * y⟩

theorem mergeLoop_width (tiles : List Img) : ∀ (b : Img) (xP yP rH : Nat),
    (mergeLoop tiles b xP yP rH).width = b.width := by
  induction tiles with
  | nil => intro b xP yP rH; rfl
  | cons t rest ih =>
    intro b xP yP rH
    simp only [mergeLoop]
    repeat' split
    all_goals first | rfl | exact ih _ _ _ _

theorem mergeLoop_height (tiles : List Img) : ∀ (b : Img) (xP yP rH : Nat),
    (mergeLoop tiles b xP yP rH).height = b.height := by
  induction tiles with
  | nil => intro b xP yP rH; rfl
  | cons t rest ih =>
    intro b xP yP rH
    simp only [mergeLoop]
    repeat' split
    all_goals first | rfl | exact ih _ _ _ _

theorem merge_width (tiles : List Img) (target : Nat × Nat) :
    (merge tiles target).width = target.1 :=
  mergeLoop_width tiles (Img.new target.1 target.2) 0 0 0

theorem merge_height (tiles : List Img) (target : Nat × Nat) :
    (merge tiles target).height = target.2 :=
  mergeLoop_height tiles (Img.new target.1 target.2) 0 0 0

theorem mergeLoop_pix_outside (tiles : List Img) :
    ∀ (W H : Nat) (f : Nat → Nat → Nat) (xP yP rH x y : Nat),
    inBoxes (mergeBoxes W H tiles xP yP rH) x y = false →
    (mergeLoop tiles ⟨W, H, f⟩ xP yP rH).pix x y = f x y := by
  induction tiles with
  | nil => intro W H f xP yP rH x y _; rfl
  | cons t rest ih =>
    intro W H f xP yP rH x y h
    simp only [mergeLoop, Img.paste, Img.resize]
    simp only [mergeBoxes] at h
    repeat' split at h
    all_goals repeat' split
    all_goals try rfl
    all_goals try contradiction
    all_goals try (exact ih _ _ _ _ _ _ _ _ h)
    all_goals simp only [inBoxes, Bool.or_eq_false_iff, decide_eq_false_iff_not] at h
    all_goals try (exact if_neg h.1)
    all_goals try (rw [ih _ _ _ _ _ _ _ _ h.2]; exact if_neg h.1)

theorem checkResources_ok_iff (st : ResState) :
    checkResources st = Except.ok () ↔
      1 * 1024 * 1024 * 1024 < st.availMem ∧ 2 * 1024 * 1024 * 1024 < st.diskFree := by
  unfold checkResources
  split
  · simp_all
  · simp_all

theorem safeResize_width (st : ResState) (img : Img) (target : Nat × Nat) :
    (safeResize st img target).width = target.1 := by
  unfold safeResize safeResizePipeline
  cases hc : checkResources st with
  | error e => rfl
  | ok u => exact merge_width _ _

theorem safeResize_height (st : ResState) (img : Img) (target : Nat × Nat) :
    (safeResize st img target).height = target.2 := by
  unfold safeResize safeResizePipeline
  cases hc : checkResources st with
  | error e => rfl
  | ok u => exact merge_height _ _

theorem safeResize_size (st : ResState) (img : Img) (target : Nat × Nat) :
    (safeResize st img target).size = target := by
  unfold Img.size
  rw [safeResize_width, safeResize_height]

theorem processImage_size (st : ResState) (img : Img) (target : Nat × Nat) :
    (processImage st img target).size = target := by
  unfold processImage
  split
  · assumption
  · exact safeResize_size st img target

theorem lt_div_succ_mul (px c : Nat) (hc : 0 < c) : px < (px / c) * c + c := by
  have h1 := Nat.div_add_mod px c
  have h2 := Nat.mod_lt px hc
  rw [Nat.mul_comm] at h1
  omega

theorem div_eq_of_between (j c px : Nat) (h1 : j * c ≤ px) (h2 : px < j * c + c) : px / c = j :=
  Nat.div_eq_of_lt_le h1 (by rw [Nat.add_mul, Nat.one_mul]; omega)

theorem mem_pyRange {s c : Nat} (hc : 0 < c) (hs : 0 < s) {a : Nat} :
    a ∈ pyRange s c ↔ (∃ k, a = k * c) ∧ a < s := by
  unfold pyRange
  simp only [List.mem_map, List.mem_range]
  constructor
  · rintro ⟨k, hk, rfl⟩
    refine ⟨⟨k, rfl⟩, ?_⟩
    have h3 : (k + 1) * c ≤ s + c - 1 := (Nat.le_div_iff_mul_le hc).mp hk
    rw [Nat.add_mul, Nat.one_mul] at h3
    omega
  · rintro ⟨⟨k, rfl⟩, hlt⟩
    refine ⟨k, ?_, rfl⟩
    have h3 : (k + 1) * c ≤ s + c - 1 := by rw [Nat.add_mul, Nat.one_mul]; omega
    exact (Nat.le_div_iff_mul_le hc).mpr h3

theorem pyRange_pairwise (s c : Nat) (hc : 0 < c) : List.Pairwise (· < ·) (pyRange s c) := by
  unfold pyRange
  refine List.Pairwise.map _ ?_ (List.pairwise_lt_range _)
  intro a b hab
  exact Nat.mul_lt_mul_of_lt_of_le hab (Nat.le_refl c) hc

theorem pyRange_single {s c : Nat} (hs : 0 < s) (hsc : s ≤ c) : pyRange s c = [0] := by
  unfold pyRange
  have h1 : (s + c - 1) / c = 1 := Nat.div_eq_of_lt_le (by omega) (by omega)
  rw [h1]
  simp [List.range_succ]

theorem mem_tilePlan {W H c : Nat} (hc : 0 < c) (hW : 0 < W) (hH : 0 < H) {t : Tile} :
    t ∈ tilePlan W H c ↔
      ∃ j i, j * c < W ∧ i * c < H ∧
        t = ⟨j * c, i * c, min (j * c + c) W, min (i * c + c) H⟩ := by
  unfold tilePlan
  simp only [List.mem_flatMap, List.mem_map]
  constructor
  · rintro ⟨y, hy, x, hx, rfl⟩
    rcases (mem_pyRange hc hH).mp hy with ⟨⟨i, rfl⟩, hiH⟩
    rcases (mem_pyRange hc hW).mp hx with ⟨⟨j, rfl⟩, hjW⟩
    exact ⟨j, i, hjW, hiH, rfl⟩
  · rintro ⟨j, i, hjW, hiH, rfl⟩
    exact ⟨i * c, (mem_pyRange hc hH).mpr ⟨⟨i, rfl⟩, hiH⟩, j * c,
      (mem_pyRange hc hW).mpr ⟨⟨j, rfl⟩, hjW⟩, rfl⟩

theorem tilePlan_covers {W H c : Nat} (hc : 0 < c) (hW : 0 < W) (hH : 0 < H) (px py : Nat) :
    (px < W ∧ py < H) ↔ ∃ t ∈ tilePlan W H c, t.contains px py := by
  constructor
  · rintro ⟨hx, hy⟩
    refine ⟨⟨px / c * c, py / c * c, min (px / c * c + c) W, min (py / c * c + c) H⟩,
      (mem_tilePlan hc hW hH).mpr ⟨px / c, py / c,
        Nat.lt_of_le_of_lt (Nat.div_mul_le_self px c) hx,
        Nat.lt_of_le_of_lt (Nat.div_mul_le_self py c) hy, rfl⟩, ?_⟩
    simp only [Tile.contains]
    exact ⟨Nat.div_mul_le_self px c, lt_min (lt_div_succ_mul px c hc) hx,
      Nat.div_mul_le_self py c, lt_min (lt_div_succ_mul py c hc) hy⟩
  · rintro ⟨t, ht, hcont⟩
    rcases (mem_tilePlan hc hW hH).mp ht with ⟨j, i, _, _, rfl⟩
    simp only [Tile.contains] at hcont
    rcases hcont with ⟨h1, h2, h3, h4⟩
    exact ⟨Nat.lt_of_lt_of_le h2 (Nat.min_le_right _ _),
      Nat.lt_of_lt_of_le h4 (Nat.min_le_right _ _)⟩

theorem tilePlan_disjoint {W H c : Nat} (hc : 0 < c) (hW : 0 < W) (hH : 0 < H) :
    ∀ t ∈ tilePlan W H c, ∀ u ∈ tilePlan W H c, t ≠ u →
      ∀ px py : Nat, ¬(t.contains px py ∧ u.contains px py) := by
  intro t ht u hu hne px py hboth
  obtain ⟨hct, hcu⟩ := hboth
  rcases (mem_tilePlan hc hW hH).mp ht with ⟨j, i, hjW, hiH, rfl⟩
  rcases (mem_tilePlan hc hW hH).mp hu with ⟨j', i', hjW', hiH', rfl⟩
  simp only [Tile.contains] at hct hcu
  obtain ⟨a1, a2, a3, a4⟩ := hct
  obtain ⟨b1, b2, b3, b4⟩ := hcu
  have e1 : px / c = j :=
    div_eq_of_between j c px a1 (Nat.lt_of_lt_of_le a2 (Nat.min_le_left _ _))
  have e2 : px / c = j' :=
    div_eq_of_between j' c px b1 (Nat.lt_of_lt_of_le b2 (Nat.min_le_left _ _))
  have e3 : py / c = i :=
    div_eq_of_between i c py a3 (Nat.lt_of_lt_of_le a4 (Nat.min_le_left _ _))
  have e4 : py / c = i' :=
    div_eq_of_between i' c py b3 (Nat.lt_of_lt_of_le b4 (Nat.min_le_left _ _))
  have hj : j = j' := by omega
  have hi : i = i' := by omega
  subst hj
  subst hi
  exact hne rfl

theorem tilePlan_rowmajor {W H c : Nat} (hc : 0 < c) :
    List.Pairwise tileBefore (tilePlan W H c) := by
  unfold tilePlan
  rw [List.pairwise_flatMap]
  constructor
  · intro y hy
    refine List.Pairwise.map _ ?_ (pyRange_pairwise W c hc)
    intro a b hab
    exact Or.inr ⟨rfl, hab⟩
  · refine List.Pairwise.imp ?_ (pyRange_pairwise H c hc)
    intro y1 y2 h12 t ht u hu
    rcases List.mem_map.mp ht with ⟨x1, hx1, rfl⟩
    rcases List.mem_map.mp hu with ⟨x2, hx2, rfl⟩
    exact Or.inl h12

theorem tilePlan_single {W H c : Nat} (hW : 0 < W) (hH : 0 < H) (hWc : W ≤ c) (hHc : H ≤ c) :
    tilePlan W H c = [⟨0, 0, W, H⟩] := by
  unfold tilePlan
  rw [pyRange_single hH hHc, pyRange_single hW hWc]
  simp [Nat.min_eq_right hWc, Nat.min_eq_right hHc]

theorem chunkSizeOf_pos (availMem W H : Nat) : 0 < chunkSizeOf availMem W H :=
  Nat.lt_of_lt_of_le (by omega) (Nat.le_max_left 256 _)

/-- Claim C1: for every mip level i >= 1 the target size the driver uses for
level i is, per axis, the integer floor of half of the previous level's
actual image size (level 0's actual size being the base size, later levels'
actual sizes being the sizes of the images the pipeline produced), and for a
256x256 base image with 3 additional levels the computed targets are exactly
128x128, 64x64, 32x32 in that order. -/
theorem mip_target_halving :
    (∀ (st : ResState) (base : Nat × Nat) (srcs : List Img) (i : Nat), i < srcs.length →
      (levelTargets base srcs.length).getD i (0, 0)
        = halveSize ((base :: (processLevels st base srcs).map Img.size).getD i (0, 0))) ∧
    levelTargets (256, 256) 3 = [(128, 128), (64, 64), (32, 32)] := by
  constructor
  · intro st base srcs
    induction srcs generalizing base with
    | nil => intro i h; exact absurd h (by simp)
    | cons s rest ih =>
      intro i h
      cases i with
      | zero =>
        simp [levelTargets, List.length_cons, processLevels]
      | succ j =>
        have hj : j < rest.length := by simpa using h
        simp only [levelTargets, List.length_cons, List.getD_cons_succ, processLevels,
          List.map_cons]
        rw [processImage_size]
        exact ih (halveSize base) j hj
  · rfl

/-- Witness for C1: one level below an 8x8 base whose source is already
4x4; the computed target for level 1 is half of the base's actual size. -/
theorem mip_target_halving_witness :
    (levelTargets (8, 8) [img44].length).getD 0 (0, 0)
      = halveSize (((8, 8) :: (processLevels stLow (8, 8) [img44]).map Img.size).getD 0 (0, 0)) :=
  mip_target_halving.1 stLow (8, 8) [img44] 0 (by decide)

/-- Claim C2 (amended): `check_resources` returns normally exactly when
available memory strictly exceeds the 1 GiB floor and free disk strictly
exceeds the 2 GiB floor, and raises otherwise; but the error is not fatal to
the level: `safe_resize` catches it before any tiling and produces the level
by a single whole-image resize to the target size. -/
theorem resource_floor_behavior :
    (∀ st : ResState, checkResources st = Except.ok () ↔
      1 * 1024 * 1024 * 1024 < st.availMem ∧ 2 * 1024 * 1024 * 1024 < st.diskFree) ∧
    (∀ (st : ResState) (img : Img) (target : Nat × Nat) (e : String),
      checkResources st = Except.error e →
      safeResize st img target = Img.resize target.1 target.2 img) := by
  constructor
  · exact checkResources_ok_iff
  · intro st img target e h
    unfold safeResize safeResizePipeline
    rw [h]

/-- Witness for the amended C2: with available memory 0 the check errors and
`safe_resize` is exactly the whole-image fallback resize. -/
theorem resource_floor_behavior_witness :
    safeResize stLow imgW (3, 3) = Img.resize 3 3 imgW :=
  resource_floor_behavior.2 stLow imgW (3, 3) "insufficient resources" rfl

/-- Counterexample to C2 as stated: at a state with available memory 0
(below the 1 GiB floor) `check_resources` raises, yet the run does not abort
and the level is still produced — `safe_resize` returns an image of exactly
the target size. -/
theorem resource_floor_not_fatal_cx :
    checkResources stLow = Except.error "insufficient resources" ∧
    (safeResize stLow imgW (2, 2)).width = 2 ∧
    (safeResize stLow imgW (2, 2)).height = 2 :=
  ⟨rfl, rfl, rfl⟩

/-- Claim C3: for every tile sequence and positive target size, `merge`
returns an image of exactly the target dimensions, and every pixel outside
the pasted boxes keeps the buffer-initialisation value 0. -/
theorem merge_target_size (tiles : List Img) (w h : Nat)
    (hne : tiles ≠ []) (hw : 0 < w) (hh : 0 < h) :
    (merge tiles (w, h)).width = w ∧ (merge tiles (w, h)).height = h ∧
    ∀ x y : Nat, inBoxes (mergeBoxes w h tiles 0 0 0) x y = false →
      (merge tiles (w, h)).pix x y = 0 :=
  ⟨merge_width _ _, merge_height _ _, fun x y hx =>
    mergeLoop_pix_outside tiles w h (fun _ _ => 0) 0 0 0 x y hx⟩

/-- Witness for C3 at a concrete one-tile sequence and 2x2 target. -/
theorem merge_target_size_witness :
    (merge [tile5] (2, 2)).width = 2 ∧ (merge [tile5] (2, 2)).height = 2 ∧
    ∀ x y : Nat, inBoxes (mergeBoxes 2 2 [tile5] 0 0 0) x y = false →
      (merge [tile5] (2, 2)).pix x y = 0 :=
  merge_target_size [tile5] 2 2 (List.cons_ne_nil _ _) (by decide) (by decide)

/-- Claim C4: for every image with positive dimensions and every
available-memory estimate, the tile plan is row-major ordered, its tiles are
pairwise disjoint, their union is exactly the image rectangle, and an image
no larger than one chunk yields exactly one tile equal to the whole image. -/
theorem tile_scheduler_plan (availMem W H : Nat) (hW : 0 < W) (hH : 0 < H) :
    List.Pairwise tileBefore (tilePlan W H (chunkSizeOf availMem W H)) ∧
    (∀ px py : Nat, (px < W ∧ py < H) ↔
      ∃ t ∈ tilePlan W H (chunkSizeOf availMem W H), t.contains px py) ∧
    (∀ t ∈ tilePlan W H (chunkSizeOf availMem W H),
      ∀ u ∈ tilePlan W H (chunkSizeOf availMem W H), t ≠ u →
        ∀ px py : Nat, ¬(t.contains px py ∧ u.contains px py)) ∧
    (W ≤ chunkSizeOf availMem W H → H ≤ chunkSizeOf availMem W H →
      tilePlan W H (chunkSizeOf availMem W H) = [⟨0, 0, W, H⟩]) :=
  ⟨tilePlan_rowmajor (chunkSizeOf_pos availMem W H),
   fun px py => tilePlan_covers (chunkSizeOf_pos availMem W H) hW hH px py,
   tilePlan_disjoint (chunkSizeOf_pos availMem W H) hW hH,
   fun h1 h2 => tilePlan_single hW hH h1 h2⟩

/-- Witness for C4 at a 4x4 image with available memory 0 (chunk size
clamps to 256, so the whole image is one tile). -/
theorem tile_scheduler_plan_witness :
    List.Pairwise tileBefore (tilePlan 4 4 (chunkSizeOf 0 4 4)) ∧
    (∀ px py : Nat, (px < 4 ∧ py < 4) ↔
      ∃ t ∈ tilePlan 4 4 (chunkSizeOf 0 4 4), t.contains px py) ∧
    (∀ t ∈ tilePlan 4 4 (chunkSizeOf 0 4 4),
      ∀ u ∈ tilePlan 4 4 (chunkSizeOf 0 4 4), t ≠ u →
        ∀ px py : Nat, ¬(t.contains px py ∧ u.contains px py)) ∧
    (4 ≤ chunkSizeOf 0 4 4 → 4 ≤ chunkSizeOf 0 4 4 →
      tilePlan 4 4 (chunkSizeOf 0 4 4) = [⟨0, 0, 4, 4⟩]) :=
  tile_scheduler_plan 0 4 4 (by decide) (by decide)

/-- Claim C5: whenever the tiling pipeline raises an error while producing a
level, `safe_resize` falls back to a single whole-image resize of the source
to the target size, so the mip level is produced (with exactly the target
dimensions) instead of the error propagating. -/
theorem fallback_on_error (st : ResState) (img : Img) (target : Nat × Nat) (e : String)
    (h : safeResizePipeline st img target = Except.error e) :
    safeResize st img target = Img.resize target.1 target.2 img ∧
    (safeResize st img target).width = target.1 ∧
    (safeResize st img target).height = target.2 := by
  unfold safeResize
  rw [h]
  exact ⟨rfl, rfl, rfl⟩

/-- Witness for C5: a concrete erroring pipeline run (available memory 0)
falls back to the whole-image resize of the expected size. -/
theorem fallback_on_error_witness :
    safeResize stLow imgW (2, 2) = Img.resize 2 2 imgW ∧
    (safeResize stLow imgW (2, 2)).width = 2 ∧
    (safeResize stLow imgW (2, 2)).height = 2 :=
  fallback_on_error stLow imgW (2, 2) "insufficient resources" rfl

/-- Claim C6 (amended): the resampled tile's dimensions are exactly
`(max(1, trunc(cropWidth*scaleX)), max(1, trunc(cropHeight*scaleY)))` —
truncation (floor), not rounding — and are therefore never zero. -/
theorem resample_dims (img : Img) (t : Tile) (tgtW tgtH : Nat) :
    (resampleTile img t tgtW tgtH).width = sourceResampleDim (t.x1 - t.x0) tgtW img.width ∧
    (resampleTile img t tgtW tgtH).height = sourceResampleDim (t.y1 - t.y0) tgtH img.height ∧
    0 < (resampleTile img t tgtW tgtH).width ∧ 0 < (resampleTile img t tgtW tgtH).height := by
  refine ⟨rfl, rfl, ?_, ?_⟩
  · exact Nat.lt_of_lt_of_le Nat.one_pos (Nat.le_max_left 1 _)
  · exact Nat.lt_of_lt_of_le Nat.one_pos (Nat.le_max_left 1 _)

/-- Counterexample to C6 as stated: a crop of width 3 at scale 1/2 gets
dimension `max(1, int(1.5)) = 1` in the source, while the claim's rounding
formula gives `max(1, round(1.5)) = 2`. -/
theorem resample_round_cx :
    sourceResampleDim 3 1 2 = 1 ∧ claimResampleDim 3 1 2 = 2 ∧
    sourceResampleDim 3 1 2 ≠ claimResampleDim 3 1 2 := by decide

/-- Claim C7: evaluation of the memory-pressure branch at a pending list of
four completed tiles. The code trims the pending list to its last 3 and
appends the current tile, but the identifiers it releases are the current
crop and the current scaled tile — the discarded tile (10) is not released,
and the released scaled tile (99) is nevertheless retained in the pending
list, contradicting the claim that exactly the discarded tiles are
released. -/
theorem pressure_release_eval :
    tileLoopStep true [10, 11, 12, 13] 98 99 = ([11, 12, 13, 99], [98, 99]) ∧
    droppedByCap [10, 11, 12, 13] = [10] ∧
    10 ∈ droppedByCap [10, 11, 12, 13] ∧
    10 ∉ (tileLoopStep true [10, 11, 12, 13] 98 99).2 ∧
    99 ∈ (tileLoopStep true [10, 11, 12, 13] 98 99).2 ∧
    99 ∈ (tileLoopStep true [10, 11, 12, 13] 98 99).1 := by decide

/-- Claim C8 (amended): when pasting a tile fails (degenerate clipped
rectangle), `merge` skips that tile and continues with the remaining tiles,
and the cursor is left untouched for the skipped tile — `x_pos` and
`current_row_height` are not advanced (stated here in the no-wrap case,
where the pre-paste cursor state is unchanged). -/
theorem merge_skip_no_advance (t : Img) (rest : List Img) (b : Img) (xP yP rH : Nat)
    (hwrap : ¬(b.width < xP + t.width)) (hy : yP < b.height)
    (hdeg : min (xP + t.width) b.width - xP = 0 ∨ min (yP + t.height) b.height - yP = 0) :
    mergeLoop (t :: rest) b xP yP rH = mergeLoop rest b xP yP rH := by
  simp only [mergeLoop, if_neg hwrap]
  rw [if_neg (by omega : ¬ b.height ≤ yP), if_pos hdeg]

/-- Witness for the amended C8: a zero-width tile at the head of the
sequence is skipped with no effect on the merge at all. -/
theorem merge_skip_no_advance_witness :
    mergeLoop [ztile] (Img.new 4 4) 0 0 0 = mergeLoop [] (Img.new 4 4) 0 0 0 :=
  merge_skip_no_advance ztile [] (Img.new 4 4) 0 0 0 (by decide) (by decide) (by decide)

/-- Counterexample to C8 as stated: with tiles `[ztile, tile7]` (a failing
zero-width tile of height 5 followed by a 2x2 tile of value 7) on a 4x4
target, the source's `merge` does not advance the cursor for the skipped
tile and pastes the next tile at the origin (pixel (0,0) becomes 7), while
the claim's variant, which advances `current_row_height` to 5 for the
skipped tile, stops before pasting anything (pixel (0,0) stays 0). -/
theorem merge_cursor_cx :
    (merge [ztile, tile7] (4, 4)).pix 0 0 = 7 ∧
    (mergeClaim [ztile, tile7] (4, 4)).pix 0 0 = 0 ∧
    (merge [ztile, tile7] (4, 4)).pix 0 0 ≠ (mergeClaim [ztile, tile7] (4, 4)).pix 0 0 := by
  decide

/-- Claim C9: merging a single tile whose dimensions equal the target size
reproduces that tile — the output has the tile's dimensions and is
pixel-for-pixel identical to it on the whole target rectangle. -/
theorem merge_single_full (t : Img) (hw : 0 < t.width) (hh : 0 < t.height) :
    (merge [t] (t.width, t.height)).width = t.width ∧
    (merge [t] (t.width, t.height)).height = t.height ∧
    ∀ x, x < t.width → ∀ y, y < t.height →
      (merge [t] (t.width, t.height)).pix x y = t.pix x y := by
  refine ⟨merge_width _ _, merge_height _ _, ?_⟩
  intro x hx y hy
  simp only [merge, Img.new, mergeLoop, Img.paste, Img.resize, zero_add]
  rw [if_neg (by omega : ¬ t.width < t.width)]
  rw [if_neg (by omega : ¬ t.height ≤ (0 : Nat))]
  simp only [zero_add, Nat.min_self, Nat.sub_zero, Nat.zero_max]
  rw [if_neg (by omega : ¬(t.width = 0 ∨ t.height = 0))]
  rw [ite_self]
  dsimp only
  rw [if_pos ⟨Nat.zero_le x, hx, Nat.zero_le y, hy⟩]
  rw [Nat.mul_div_cancel x hw, Nat.mul_div_cancel y hh]

/-- Witness for C9 at a concrete 2x3 tile with injective pixel values. -/
theorem merge_single_full_witness :
    (merge [tfull] (tfull.width, tfull.height)).width = tfull.width ∧
    (merge [tfull] (tfull.width, tfull.height)).height = tfull.height ∧
    ∀ x, x < tfull.width → ∀ y, y < tfull.height →
      (merge [tfull] (tfull.width, tfull.height)).pix x y = tfull.pix x y :=
  merge_single_full tfull (by decide) (by decide)

/-- Claim C10: merging the empty tile sequence succeeds and returns an image
of exactly the target dimensions with every pixel at the
buffer-initialisation value 0. -/
theorem merge_empty_tiles (w h : Nat) (hw : 0 < w) (hh : 0 < h) :
    (merge [] (w, h)).width = w ∧ (merge [] (w, h)).height = h ∧
    ∀ x y : Nat, (merge [] (w, h)).pix x y = 0 :=
  ⟨rfl, rfl, fun _ _ => rfl⟩

/-- Witness for C10 at a concrete 3x2 target. -/
theorem merge_empty_tiles_witness :
    (merge [] (3, 2)).width = 3 ∧ (merge [] (3, 2)).height = 2 ∧
    ∀ x y : Nat, (merge [] (3, 2)).pix x y = 0 :=
  merge_empty_tiles 3 2 (by decide) (by decide)
